import Mathlib

/-!
Verification of the phone-number normalizer/formatter core of the
`PhoneInput` component (files `src/shared/ui/PhoneInput/PhoneInput.tsx`
and an unnamed earlier variant of the same component).

Strings are modelled as `List Char`.  JavaScript string operations are
translated as follows: `s.replace(/\D/g, '')` is `List.filter Char.isDigit`,
`s.trim()` drops whitespace from both ends, `s.slice(a)` is `List.drop a`,
`s.slice(a, b)` is `(List.drop a).take (b - a)`, `s.startsWith(p)` is a
prefix test, and template concatenation is list append.
-/

namespace PhoneVerify

abbrev Str := List Char

/-- `digitsOnly` from both variants: `(s ?? '').replace(/\D/g, '')`. -/
def digitsOnly (s : Str) : Str := s.filter Char.isDigit

/-- JavaScript `String.prototype.trim`: drop whitespace at both ends. -/
def jsTrim (s : Str) : Str :=
  ((s.dropWhile Char.isWhitespace).reverse.dropWhile Char.isWhitespace).reverse

/-- JavaScript `s.startsWith(p)`: `startsWithStr s p` is true when `p` is a
prefix of `s`. -/
def startsWithStr : Str → Str → Bool
  | _, [] => true
  | [], _ :: _ => false
  | c :: cs, p :: ps => (c == p) && startsWithStr cs ps

/-- `isRuMask` from `PhoneInput.tsx`: the regex
`/^\+7\(\d{3}\)\d{3}-\d{2}-\d{2}$/`. -/
def isRuMask : Str → Bool
  | ['+', '7', '(', a, b, c, ')', d, e, f, '-', g, h, '-', i, j] =>
      a.isDigit && b.isDigit && c.isDigit && d.isDigit && e.isDigit &&
      f.isDigit && g.isDigit && h.isDigit && i.isDigit && j.isDigit
  | _ => false

/-- `isInternationalE164ish` from `PhoneInput.tsx`: the regex
`/^\+\d{10,15}$/`. -/
def isInternationalE164ish : Str → Bool
  | '+' :: rest => rest.all Char.isDigit && 10 ≤ rest.length && rest.length ≤ 15
  | _ => false

/-- The two sequential rewrites at the top of `formatRuFromDigits`
(and of the variant `formatRu`): `8XXXXXXXXXX -> 7XXXXXXXXXX`,
then prepend `7` to a 10-digit string. -/
def ruPreprocess (d0 : Str) : Str :=
  let d1 := if d0.length = 11 && startsWithStr d0 ['8'] then '7' :: d0.drop 1 else d0
  if d1.length = 10 then '7' :: d1 else d1

/-- The masking table at the bottom of `formatRuFromDigits` (applied after
`d = d.slice(0, 11)`): renders `d` with the `+7(XXX)XXX-XX-XX` punctuation. -/
def ruMask (d : Str) : Str :=
  if d.length ≤ 1 then ['+', '7']
  else if d.length ≤ 4 then ['+', '7', '('] ++ d.drop 1
  else if d.length ≤ 7 then ['+', '7', '('] ++ (d.drop 1).take 3 ++ [')'] ++ d.drop 4
  else if d.length ≤ 9 then
    ['+', '7', '('] ++ (d.drop 1).take 3 ++ [')'] ++ (d.drop 4).take 3 ++ ['-'] ++ d.drop 7
  else
    ['+', '7', '('] ++ (d.drop 1).take 3 ++ [')'] ++ (d.drop 4).take 3 ++ ['-'] ++
      (d.drop 7).take 2 ++ ['-'] ++ d.drop 9

/-- `formatRuFromDigits` from `PhoneInput.tsx`.  Note that the
"not RU, return as is" early return happens before the `slice(0, 11)`
truncation, exactly as in the source. -/
def formatRuFromDigits (digits : Str) : Str :=
  let d := ruPreprocess (digitsOnly digits)
  if !startsWithStr d ['7'] then d
  else ruMask (d.take 11)

/-- `formatRu` from the unnamed variant: identical to `formatRuFromDigits`
except for the initial `if (!digits) return ''` guard and the spelled-out
`d.length >= 1 &&` conjunct on the RU test. -/
def formatRu (digits : Str) : Str :=
  if digits = [] then []
  else
    let d := ruPreprocess (digitsOnly digits)
    if !(1 ≤ d.length && startsWithStr d ['7']) then d
    else ruMask (d.take 11)

/-- `normalizeInternational` from `PhoneInput.tsx`: trim, keep the first
15 digits, empty digits give the empty string, otherwise a `+` is always
prepended. -/
def normalizeInternational (raw : Str) : Str :=
  let trimmed := jsTrim raw
  let d := (digitsOnly trimmed).take 15
  if d = [] then [] else '+' :: d

/-- `shouldTreatAsInternational` from `PhoneInput.tsx` (the unnamed variant
is textually identical): three early `return true` tests, then `false`. -/
def shouldTreatAsInternational (raw : Str) (digits : Str) : Bool :=
  let trimmed := jsTrim raw
  if startsWithStr trimmed ['+'] && !startsWithStr trimmed ['+', '7'] then true
  else if decide (11 < digits.length) && !startsWithStr digits ['7'] && !startsWithStr digits ['8'] then true
  else if decide (10 < digits.length) && !startsWithStr digits ['7'] && !startsWithStr digits ['8'] then true
  else false

/-- `handleChange` from `PhoneInput.tsx` (typed-edit handler). -/
def handleChange (raw prev : Str) : Str :=
  if raw = [] then []
  else if isRuMask raw || isInternationalE164ish raw then raw
  else
    let d := digitsOnly raw
    if d = [] then []
    else
      let isDeleting := decide (raw.length < prev.length)
      if shouldTreatAsInternational raw d then normalizeInternational raw
      else if d.length = 10 then formatRuFromDigits d
      else if startsWithStr d ['7'] || startsWithStr d ['8'] then formatRuFromDigits d
      else if isDeleting then normalizeInternational raw
      else normalizeInternational raw

/-- `handlePaste` from `PhoneInput.tsx`: computes the full replacement
value from the pasted text alone. -/
def handlePaste (pastedRaw : Str) : Str :=
  let raw := jsTrim pastedRaw
  let d := digitsOnly raw
  if d = [] then []
  else if startsWithStr raw ['+'] && !startsWithStr raw ['+', '7'] then '+' :: d.take 15
  else if d.length = 11 && (startsWithStr d ['7'] || startsWithStr d ['8']) then formatRuFromDigits d
  else if d.length = 10 then formatRuFromDigits d
  else if decide (10 < d.length) && !startsWithStr d ['7'] && !startsWithStr d ['8'] then '+' :: d.take 15
  else if startsWithStr raw ['+'] then '+' :: d.take 15
  else d.take 15

/-- The `onPaste` glue in `PhoneInput.tsx` always commits
`handlePaste(pasted)` through `field.onChange`, regardless of the previous
committed value. -/
def onPasteCommit (pasted _prev : Str) : Str := handlePaste pasted

/-- `handlePaste` from the unnamed variant: on empty digits it returns
without calling `onChange` (modelled as `none`); otherwise it commits a
value (modelled as `some`). -/
def handlePasteV0 (pasted : Str) : Option Str :=
  let pastedRaw := jsTrim pasted
  let d := digitsOnly pastedRaw
  if d = [] then none
  else
    let hasPlus := startsWithStr pastedRaw ['+']
    if hasPlus && !startsWithStr pastedRaw ['+', '7'] then some ('+' :: d.take 15)
    else if d.length = 11 && (startsWithStr d ['7'] || startsWithStr d ['8']) then some (formatRu d)
    else if d.length = 10 then some (formatRu d)
    else if decide (10 < d.length) && !startsWithStr d ['7'] && !startsWithStr d ['8'] then some ('+' :: d.take 15)
    else if hasPlus then some ('+' :: d.take 15) else some (d.take 15)

/-- The character pattern of the full RU mask `+7(DDD)DDD-DD-DD`:
`some c` is a literal character, `none` is a decimal-digit slot. -/
def ruMaskPattern : List (Option Char) :=
  [some '+', some '7', some '(', none, none, none, some ')', none, none, none,
   some '-', none, none, some '-', none, none]

/-- `matchesMask v p` holds when `v` is a character-by-character prefix of
the pattern `p` (literals must match exactly, slots must hold digits). -/
def matchesMask : Str → List (Option Char) → Bool
  | [], _ => true
  | _ :: _, [] => false
  | c :: cs, p :: ps =>
      (match p with
       | some x => c == x
       | none => c.isDigit) && matchesMask cs ps

/-- A non-empty (possibly incomplete) RU mask: a non-empty prefix of the
`+7(DDD)DDD-DD-DD` shape. -/
def isRuMaskPart (v : Str) : Bool := !v.isEmpty && matchesMask v ruMaskPattern

/-- A `+`-prefixed digit string with at most 15 digits (at most 16
characters in total). -/
def isPlusDigits15 : Str → Bool
  | '+' :: rest => rest.all Char.isDigit && rest.length ≤ 15
  | _ => false

/-- The shape invariant claimed by the spec for every committed
`PhoneValue`: empty, a (possibly partial) RU mask, or `+` plus at most 15
digits. -/
def validShapeSpec (v : Str) : Bool :=
  v.isEmpty || isRuMaskPart v || isPlusDigits15 v

/-- The spec shapes extended with bare digit strings, which the handlers
can also produce. -/
def validShapeAmended (v : Str) : Bool :=
  validShapeSpec v || v.all Char.isDigit

/-! ### Helper lemmas -/

theorem ws_not_digit {c : Char} (h : c.isWhitespace = true) : c.isDigit = false := by
  simp [Char.isWhitespace] at h
  rcases h with ((h | h) | h) | h <;> subst h <;> decide

theorem filter_digit_dropWhile (l : Str) :
    (l.dropWhile Char.isWhitespace).filter Char.isDigit = l.filter Char.isDigit := by
  induction l with
  | nil => rfl
  | cons c cs ih =>
    by_cases h : c.isWhitespace = true
    · rw [List.dropWhile_cons]
      simp [h, ih, List.filter_cons, ws_not_digit h]
    · rw [List.dropWhile_cons]
      simp [h]

theorem digitsOnly_jsTrim (s : Str) : digitsOnly (jsTrim s) = digitsOnly s := by
  unfold digitsOnly jsTrim
  rw [List.filter_reverse, filter_digit_dropWhile, List.filter_reverse,
    List.reverse_reverse, filter_digit_dropWhile]

theorem allDigits_digitsOnly (s : Str) : (digitsOnly s).all Char.isDigit = true := by
  rw [List.all_eq_true]
  intro x hx
  exact (List.mem_filter.mp hx).2

theorem digitsOnly_of_all {l : Str} (h : l.all Char.isDigit = true) : digitsOnly l = l := by
  unfold digitsOnly
  rw [List.filter_eq_self]
  exact fun a ha => List.all_eq_true.mp h a ha

theorem all_take {l : Str} (n : Nat) (h : l.all Char.isDigit = true) :
    (l.take n).all Char.isDigit = true := by
  rw [List.all_eq_true] at h ⊢
  exact fun x hx => h x (List.take_subset n l hx)

theorem all_drop {l : Str} (n : Nat) (h : l.all Char.isDigit = true) :
    (l.drop n).all Char.isDigit = true := by
  rw [List.all_eq_true] at h ⊢
  exact fun x hx => h x (List.drop_subset n l hx)

theorem startsWith_take {l : Str} {c : Char} (n : Nat) (hn : 1 ≤ n)
    (h : startsWithStr l [c] = true) : startsWithStr (l.take n) [c] = true := by
  cases l with
  | nil => simp [startsWithStr] at h
  | cons a t =>
    cases n with
    | zero => omega
    | succ m => simpa [startsWithStr, List.take_succ_cons] using h

theorem starts7_not8 {l : Str} (h : startsWithStr l ['7'] = true) :
    startsWithStr l ['8'] = false := by
  cases l with
  | nil => simp [startsWithStr] at h
  | cons a t =>
    simp [startsWithStr] at h ⊢
    simp [h]

theorem ruPreprocess_eq (x : Str) :
    ruPreprocess x =
      if x.length = 10 then '7' :: x
      else if x.length = 11 ∧ startsWithStr x ['8'] = true then '7' :: x.drop 1
      else x := by
  unfold ruPreprocess
  by_cases h1 : x.length = 11
  · by_cases h8 : startsWithStr x ['8'] = true
    · simp [h1, h8]
    · simp [h1, h8]
  · by_cases h10 : x.length = 10
    · simp [h1, h10]
    · simp [h1, h10]

theorem ruPreprocess_length_ne10 (x : Str) : (ruPreprocess x).length ≠ 10 := by
  rw [ruPreprocess_eq]
  split_ifs <;> simp_all

theorem ruPreprocess_eq_of_not7 {x : Str}
    (h : startsWithStr (ruPreprocess x) ['7'] = false) : ruPreprocess x = x := by
  rw [ruPreprocess_eq] at h ⊢
  split_ifs at h ⊢ <;> simp_all [startsWithStr]

theorem ruPreprocess_all {x : Str} (h : x.all Char.isDigit = true) :
    (ruPreprocess x).all Char.isDigit = true := by
  have hd : (x.drop 1).all Char.isDigit = true := all_drop 1 h
  have h7 : ('7' : Char).isDigit = true := by decide
  rw [ruPreprocess_eq]
  split_ifs <;> simp_all [List.all_cons]

theorem ruMask_props {q : Str} (hq : q.length ≤ 11) (hall : q.all Char.isDigit = true)
    (h7 : startsWithStr q ['7'] = true) :
    digitsOnly (ruMask q) = q ∧ isRuMaskPart (ruMask q) = true ∧ (ruMask q).length ≤ 16 := by
  obtain ⟨t, rfl⟩ : ∃ t, q = '7' :: t := by
    cases q with
    | nil => simp [startsWithStr] at h7
    | cons a t =>
      simp [startsWithStr] at h7
      exact ⟨t, by rw [h7]⟩
  have hat : t.all Char.isDigit = true := by
    rw [List.all_cons, Bool.and_eq_true] at hall
    exact hall.2
  have hlt : t.length ≤ 10 := by
    simp [List.length_cons] at hq
    omega
  clear hall hq h7
  rcases t with _ | ⟨a, _ | ⟨b, _ | ⟨c, _ | ⟨d, _ | ⟨e, _ | ⟨f, _ | ⟨g, _ | ⟨i, _ | ⟨j, _ | ⟨k, rest⟩⟩⟩⟩⟩⟩⟩⟩⟩⟩ <;>
    [skip; skip; skip; skip; skip; skip; skip; skip; skip; skip; cases rest] <;>
    simp_all [ruMask, digitsOnly, isRuMaskPart, matchesMask, ruMaskPattern, List.filter,
      List.all_cons]

theorem shape_empty : validShapeAmended [] = true := by decide

theorem shape_norm (raw : Str) : validShapeAmended (normalizeInternational raw) = true := by
  simp only [normalizeInternational]
  split_ifs with h
  · decide
  · have h1 : ((digitsOnly (jsTrim raw)).take 15).all Char.isDigit = true :=
      all_take 15 (allDigits_digitsOnly _)
    have h2 : ((digitsOnly (jsTrim raw)).take 15).length ≤ 15 := by
      rw [List.length_take]
      exact min_le_left _ _
    simp [validShapeAmended, validShapeSpec, isPlusDigits15, h1, h2]

theorem shape_formatRu (x : Str) :
    validShapeAmended (formatRuFromDigits x) = true := by
  by_cases h7 : startsWithStr (ruPreprocess (digitsOnly x)) ['7'] = true
  · have hall : (ruPreprocess (digitsOnly x)).all Char.isDigit = true :=
      ruPreprocess_all (allDigits_digitsOnly x)
    have hq7 : startsWithStr ((ruPreprocess (digitsOnly x)).take 11) ['7'] = true :=
      startsWith_take 11 (by omega) h7
    have hql : ((ruPreprocess (digitsOnly x)).take 11).length ≤ 11 := by
      rw [List.length_take]
      exact min_le_left _ _
    obtain ⟨-, hpart, -⟩ := ruMask_props hql (all_take 11 hall) hq7
    simp only [formatRuFromDigits]
    simp [h7, validShapeAmended, validShapeSpec, hpart]
  · have h7f : startsWithStr (ruPreprocess (digitsOnly x)) ['7'] = false := by
      cases hb : startsWithStr (ruPreprocess (digitsOnly x)) ['7']
      · rfl
      · exact absurd hb h7
    simp only [formatRuFromDigits]
    simp [h7f, validShapeAmended, validShapeSpec, ruPreprocess_all (allDigits_digitsOnly x)]

theorem shape_rawRu {v : Str} (h : isRuMask v = true) : validShapeAmended v = true := by
  unfold isRuMask at h
  split at h
  · simp at h
    simp [validShapeAmended, validShapeSpec, isRuMaskPart, matchesMask, ruMaskPattern, h]
  · simp at h

theorem shape_rawE164 {v : Str} (h : isInternationalE164ish v = true) :
    validShapeAmended v = true := by
  unfold isInternationalE164ish at h
  split at h
  · rename_i rest
    simp at h
    simp [validShapeAmended, validShapeSpec, isPlusDigits15, h.1.1, h.2]
    exact Or.inr h.1.1
  · simp at h

theorem shape_plusTake {d : Str} (hd : d.all Char.isDigit = true) :
    validShapeAmended ('+' :: d.take 15) = true := by
  have h2 : (d.take 15).length ≤ 15 := by
    rw [List.length_take]
    exact min_le_left _ _
  simp [validShapeAmended, validShapeSpec, isPlusDigits15, all_take 15 hd, h2]

theorem shape_bare {d : Str} (hd : d.all Char.isDigit = true) :
    validShapeAmended d = true := by
  simp [validShapeAmended, hd]

/-! ### Claim theorems -/

/-- Claim C2, counterexample: pasting `"123"` produces the bare digit
string `"123"`, which is neither empty, nor a partial RU mask, nor a
`+`-prefixed digit string — refuting the claimed shape invariant. -/
theorem claim_C2_counterexample :
    handlePaste ['1', '2', '3'] = ['1', '2', '3'] ∧
      validShapeSpec ['1', '2', '3'] = false := by decide

/-- Claim C2 (amended): every string produced by the typed-edit handler
and by the paste handler is empty, a (possibly partial) RU mask, a
`+`-prefixed digit string of at most 16 characters, or a bare digit
string. -/
theorem claim_C2_amended (raw prev pasted : Str) :
    validShapeAmended (handleChange raw prev) = true ∧
      validShapeAmended (handlePaste pasted) = true := by
  constructor
  · simp only [handleChange]
    split_ifs with h1 h2 h3 h4 h5 h6 h7x
    · exact shape_empty
    · have h2or : isRuMask raw = true ∨ isInternationalE164ish raw = true := by
        simpa using h2
      rcases h2or with h | h
      · exact shape_rawRu h
      · exact shape_rawE164 h
    · exact shape_empty
    · exact shape_norm raw
    · exact shape_formatRu _
    · exact shape_formatRu _
    · exact shape_norm raw
    · exact shape_norm raw
  · simp only [handlePaste]
    split_ifs with h1 h2 h3 h4 h5 h6
    · exact shape_empty
    · exact shape_plusTake (allDigits_digitsOnly _)
    · exact shape_formatRu _
    · exact shape_formatRu _
    · exact shape_plusTake (allDigits_digitsOnly _)
    · exact shape_plusTake (allDigits_digitsOnly _)
    · exact shape_bare (all_take 15 (allDigits_digitsOnly _))

/-- Claim C4, counterexample: pasting `"abc"` (no digits) over the
previous value `"+7"` commits the empty string, not the previous value. -/
theorem claim_C4_counterexample :
    digitsOnly ['a', 'b', 'c'] = [] ∧
      onPasteCommit ['a', 'b', 'c'] ['+', '7'] = [] ∧
      onPasteCommit ['a', 'b', 'c'] ['+', '7'] ≠ ['+', '7'] := by decide

/-- Claim C4 (amended): when the pasted text has no digits, the
`PhoneInput.tsx` paste handler commits the empty string (replacing the
previous value), while the unnamed variant issues no change signal at
all. -/
theorem claim_C4_amended (pasted prev : Str) (h : digitsOnly pasted = []) :
    onPasteCommit pasted prev = [] ∧ handlePasteV0 pasted = none := by
  have ht : digitsOnly (jsTrim pasted) = [] := by rw [digitsOnly_jsTrim]; exact h
  constructor
  · simp only [onPasteCommit, handlePaste]
    simp [ht]
  · simp only [handlePasteV0]
    simp [ht]

/-- Claim C4 witness: the amended theorem at pasted `"abc"`, previous
value `"+7"`. -/
theorem claim_C4_witness :
    onPasteCommit ['a', 'b', 'c'] ['+', '7'] = [] ∧
      handlePasteV0 ['a', 'b', 'c'] = none :=
  claim_C4_amended ['a', 'b', 'c'] ['+', '7'] (by decide)

/-- Claim C5: `normalizeInternational` returns the empty string when the
raw string has no digits, and otherwise `+` followed by the first at most
15 digits of the raw string, with the `+` always present. -/
theorem claim_C5 (raw : Str) :
    (digitsOnly raw = [] → normalizeInternational raw = []) ∧
      (digitsOnly raw ≠ [] →
        normalizeInternational raw = '+' :: (digitsOnly raw).take 15) := by
  simp only [normalizeInternational, digitsOnly_jsTrim]
  constructor
  · intro h
    simp [h]
  · intro h
    have hne : (digitsOnly raw).take 15 ≠ [] := by
      cases hd : digitsOnly raw with
      | nil => exact absurd hd h
      | cons a t => simp [List.take_succ_cons]
    simp [hne]

/-- Claim C5 witness: the theorem at raw `"a1b"`. -/
theorem claim_C5_witness : normalizeInternational ['a', '1', 'b'] = ['+', '1'] := by
  have h := (claim_C5 ['a', '1', 'b']).2 (by decide)
  rw [h]
  decide

/-- Claim C6: the classifier returns true exactly when the trimmed raw
text starts with `+` but not `+7`, or the digit count exceeds 10 and the
digits start with neither `7` nor `8`; the `> 11` rule is subsumed. -/
theorem claim_C6 (raw digits : Str) :
    shouldTreatAsInternational raw digits =
      ((startsWithStr (jsTrim raw) ['+'] && !startsWithStr (jsTrim raw) ['+', '7']) ||
        (decide (10 < digits.length) && !startsWithStr digits ['7'] &&
          !startsWithStr digits ['8'])) := by
  simp only [shouldTreatAsInternational]
  split_ifs with h1 h2 h3
  all_goals simp_all
  all_goals omega

/-- Claim C9: full RU masks and `+`-plus-10-to-15-digit strings are
fixpoints of the typed-edit handler, whatever the previous value. -/
theorem claim_C9 (v prev : Str)
    (h : (isRuMask v || isInternationalE164ish v) = true) :
    handleChange v prev = v := by
  have hv : v ≠ [] := by
    intro hnil
    rw [hnil] at h
    exact absurd h (by decide)
  simp only [handleChange]
  simp [hv, h]

/-- Claim C9 witness: the theorem at the fully formatted value
`"+7(999)123-45-67"` with empty previous value. -/
theorem claim_C9_witness :
    handleChange ['+', '7', '(', '9', '9', '9', ')', '1', '2', '3', '-', '4', '5', '-', '6', '7'] [] =
      ['+', '7', '(', '9', '9', '9', ')', '1', '2', '3', '-', '4', '5', '-', '6', '7'] :=
  claim_C9 _ [] (by decide)

/-- Claim C10: the typed-edit handler's result does not depend on the
previous value — the is-deleting branch and the final fallback coincide. -/
theorem claim_C10 (raw prev1 prev2 : Str) :
    handleChange raw prev1 = handleChange raw prev2 := by
  simp only [handleChange]
  split_ifs <;> rfl

/-- Claim C3, counterexample: on 17 digits not starting with `7` the
formatter returns them untruncated, so the output has 17 > 16
characters — the claimed unconditional truncation to 11 digits fails. -/
theorem claim_C3_counterexample :
    16 < (formatRuFromDigits (List.replicate 17 '9')).length := by decide

/-- Claim C3 (amended): the truncation to 11 digits happens only on the
branch where the preprocessed digits start with `7`, where the output
indeed never exceeds 16 characters; on the other branch the digit string
is returned unchanged and untruncated. -/
theorem claim_C3_amended (s : Str) :
    (startsWithStr (ruPreprocess (digitsOnly s)) ['7'] = true →
        (formatRuFromDigits s).length ≤ 16) ∧
      (startsWithStr (ruPreprocess (digitsOnly s)) ['7'] = false →
        formatRuFromDigits s = digitsOnly s) := by
  constructor
  · intro h7
    have hall : (ruPreprocess (digitsOnly s)).all Char.isDigit = true :=
      ruPreprocess_all (allDigits_digitsOnly s)
    have hq7 : startsWithStr ((ruPreprocess (digitsOnly s)).take 11) ['7'] = true :=
      startsWith_take 11 (by omega) h7
    have hql : ((ruPreprocess (digitsOnly s)).take 11).length ≤ 11 := by
      rw [List.length_take]
      exact min_le_left _ _
    obtain ⟨-, -, hlen⟩ := ruMask_props hql (all_take 11 hall) hq7
    simp only [formatRuFromDigits]
    simpa [h7] using hlen
  · intro h7
    have hre : ruPreprocess (digitsOnly s) = digitsOnly s := ruPreprocess_eq_of_not7 h7
    simp only [formatRuFromDigits]
    rw [hre] at h7 ⊢
    simp [h7]

/-- Claim C3 witness: the amended theorem's RU branch at the 11-digit
input `"79991234567"`. -/
theorem claim_C3_witness :
    (formatRuFromDigits ['7', '9', '9', '9', '1', '2', '3', '4', '5', '6', '7']).length ≤ 16 :=
  (claim_C3_amended ['7', '9', '9', '9', '1', '2', '3', '4', '5', '6', '7']).1 (by decide)

/-- Claim C8: a 10-digit string is formatted exactly as the same string
with the country code `7` prepended. -/
theorem claim_C8 (d : Str) (hall : d.all Char.isDigit = true) (hlen : d.length = 10) :
    formatRuFromDigits d = formatRuFromDigits ('7' :: d) := by
  have hd : digitsOnly d = d := digitsOnly_of_all hall
  have hd7all : ('7' :: d).all Char.isDigit = true := by
    rw [List.all_cons, hall]
    decide
  have hd7 : digitsOnly ('7' :: d) = '7' :: d := digitsOnly_of_all hd7all
  simp only [formatRuFromDigits]
  rw [hd, hd7, ruPreprocess_eq, ruPreprocess_eq]
  simp [hlen, startsWithStr]

/-- Claim C8 witness: the theorem at the 10-digit input `"9991234567"`. -/
theorem claim_C8_witness :
    formatRuFromDigits ['9', '9', '9', '1', '2', '3', '4', '5', '6', '7'] =
      formatRuFromDigits ('7' :: ['9', '9', '9', '1', '2', '3', '4', '5', '6', '7']) :=
  claim_C8 ['9', '9', '9', '1', '2', '3', '4', '5', '6', '7'] (by decide) (by decide)

/-- Claim C7: applying the RU formatter to the digits of its own output
reproduces the output. -/
theorem claim_C7 (d : Str) (hd : d.all Char.isDigit = true) :
    formatRuFromDigits (digitsOnly (formatRuFromDigits d)) = formatRuFromDigits d := by
  have hdd : digitsOnly d = d := digitsOnly_of_all hd
  by_cases h7 : startsWithStr (ruPreprocess (digitsOnly d)) ['7'] = true
  · have hpall : (ruPreprocess (digitsOnly d)).all Char.isDigit = true :=
      ruPreprocess_all (allDigits_digitsOnly d)
    have hq7 : startsWithStr ((ruPreprocess (digitsOnly d)).take 11) ['7'] = true :=
      startsWith_take 11 (by omega) h7
    have hqall : ((ruPreprocess (digitsOnly d)).take 11).all Char.isDigit = true :=
      all_take 11 hpall
    have hql : ((ruPreprocess (digitsOnly d)).take 11).length ≤ 11 := by
      rw [List.length_take]
      exact min_le_left _ _
    obtain ⟨hdig, -, -⟩ := ruMask_props hql hqall hq7
    have hout : formatRuFromDigits d = ruMask ((ruPreprocess (digitsOnly d)).take 11) := by
      simp only [formatRuFromDigits]
      simp [h7]
    rw [hout, hdig]
    have hq10 : ((ruPreprocess (digitsOnly d)).take 11).length ≠ 10 := by
      have h10 := ruPreprocess_length_ne10 (digitsOnly d)
      rw [List.length_take, Nat.min_def]
      split_ifs <;> omega
    have hq8 : startsWithStr ((ruPreprocess (digitsOnly d)).take 11) ['8'] = false :=
      starts7_not8 hq7
    have hpre : ruPreprocess ((ruPreprocess (digitsOnly d)).take 11) =
        (ruPreprocess (digitsOnly d)).take 11 := by
      rw [ruPreprocess_eq, if_neg hq10, if_neg]
      intro hcon
      simp [hcon.2] at hq8
    simp only [formatRuFromDigits]
    rw [digitsOnly_of_all hqall, hpre]
    simp [hq7, List.take_take]
  · have h7f : startsWithStr (ruPreprocess (digitsOnly d)) ['7'] = false := by
      cases hb : startsWithStr (ruPreprocess (digitsOnly d)) ['7']
      · rfl
      · exact absurd hb h7
    rw [hdd] at h7f
    have hre : ruPreprocess d = d := ruPreprocess_eq_of_not7 h7f
    rw [hre] at h7f
    have hout : formatRuFromDigits d = d := by
      simp only [formatRuFromDigits]
      rw [hdd, hre]
      simp [h7f]
    rw [hout, hdd]
    exact hout

/-- Claim C7 witness: the theorem at the 10-digit input `"9991234567"`. -/
theorem claim_C7_witness :
    formatRuFromDigits
        (digitsOnly (formatRuFromDigits ['9', '9', '9', '1', '2', '3', '4', '5', '6', '7'])) =
      formatRuFromDigits ['9', '9', '9', '1', '2', '3', '4', '5', '6', '7'] :=
  claim_C7 ['9', '9', '9', '1', '2', '3', '4', '5', '6', '7'] (by decide)

/-- Claim C1, counterexample: typing `"9"` is classified Domestic, yet the
handler returns `normalizeInternational("9") = "+9"`, not
`formatRu("9") = "9"` — the separate fallback path for domestic-classified
digits not starting with `7`/`8` does affect the result. -/
theorem claim_C1_counterexample :
    shouldTreatAsInternational ['9'] (digitsOnly ['9']) = false ∧
      formatRuFromDigits (digitsOnly ['9']) = ['9'] ∧
      handleChange ['9'] [] = ['+', '9'] ∧
      handleChange ['9'] [] ≠ formatRuFromDigits (digitsOnly ['9']) := by decide

/-- Claim C1 (amended): for non-empty typed rawText with non-empty digits,
the handler first returns rawText unchanged if it already matches the full
RU mask or the `+`-digits pattern; otherwise it returns
`normalizeInternational(rawText)` when classified International,
`formatRu(digits)` when classified Domestic with digits of length 10 or
starting with `7`/`8`, and falls back to `normalizeInternational(rawText)`
for the remaining domestic-classified inputs. -/
theorem claim_C1_amended (raw prev : Str) (h1 : raw ≠ []) (h2 : digitsOnly raw ≠ []) :
    handleChange raw prev =
      if isRuMask raw || isInternationalE164ish raw then raw
      else if shouldTreatAsInternational raw (digitsOnly raw) then normalizeInternational raw
      else if (digitsOnly raw).length = 10 ∨ startsWithStr (digitsOnly raw) ['7'] = true ∨
          startsWithStr (digitsOnly raw) ['8'] = true then
        formatRuFromDigits (digitsOnly raw)
      else normalizeInternational raw := by
  simp only [handleChange]
  split_ifs <;> simp_all

/-- Claim C1 witness: the amended theorem at raw `"9"`, previous value
empty, where the final fallback branch is taken. -/
theorem claim_C1_witness : handleChange ['9'] [] = normalizeInternational ['9'] := by
  have h := claim_C1_amended ['9'] [] (by decide) (by decide)
  rw [h]
  decide


end PhoneVerify
